import Mathlib

/-!
Verification of `script/judge.py`, a judge harness for Luogu-style problem
folders.  The Python source is shallowly embedded: program text (stdout,
expected output) is `List Char`, times are `ℚ`, memory counters are `ℤ`,
and the interactions with the operating system (the child process outcome,
the `resource` module counters, the parse of the `/usr/bin/time` side-channel
file, the wall-clock delta, and the rendered `difflib` diff lines) are
supplied as an explicit environment record, so that the pure control flow of
`run_single_test`, `compile_source`, `list_tests`, `find_source` and `main`
is translated faithfully from the source.
-/

namespace Judge

/-- ASCII whitespace, the class used by Python's `str.strip()` / `str.split()`
(restricted to the ASCII range, which is all the judge's outputs use). -/
def isPySpace (c : Char) : Bool :=
  c = ' ' || c = '\t' || c = '\n' || c = '\r' || c = '\x0b' || c = '\x0c'

/-- Python `str.strip()`: drop leading and trailing whitespace. -/
def pyStrip (s : List Char) : List Char :=
  ((s.dropWhile isPySpace).reverse.dropWhile isPySpace).reverse

/-- Helper for `pySplit`: accumulate the current token (reversed) while
scanning. -/
def pySplitAux : List Char → List Char → List (List Char)
  | [], acc => if acc = [] then [] else [acc.reverse]
  | c :: cs, acc =>
    if isPySpace c then
      if acc = [] then pySplitAux cs []
      else acc.reverse :: pySplitAux cs []
    else pySplitAux cs (c :: acc)

/-- Python `str.split()` with no separator: split on runs of whitespace,
discarding empty tokens. -/
def pySplit (s : List Char) : List (List Char) :=
  pySplitAux s []

/-- The function `normalize_text` from judge.py lines 99-100: `text.strip().split()`. -/
def normalize_text (text : List Char) : List (List Char) :=
  pySplit (pyStrip text)

/-- Rejoin a token list with single spaces, the canonical string
representative of a normalized token sequence. -/
def joinTokens (ts : List (List Char)) : List Char :=
  (ts.intersperse [' ']).flatten

/-- The `CompileResult` dataclass (judge.py lines 30-37).  `binary` is the
artifact path. -/
structure CompileResult where
  success : Bool
  message : String
  stdout : String
  stderr : String
  elapsed : ℚ
  binary : Option String
deriving Repr, DecidableEq

/-- The `TestResult` dataclass (judge.py lines 40-48). -/
structure TestResult where
  name : String
  status : String
  time_seconds : Option ℚ
  memory_kb : Option ℤ
  stdout : List Char
  stderr : List Char
  message : String
deriving Repr, DecidableEq

/-- Embedding of `compile_source` (judge.py lines 66-88), parametrized by the compiler
subprocess outcome (`proc.returncode`, `proc.stdout`, `proc.stderr`) and the
measured elapsed time.  The Python function is straight-line code with no
`raise`: a non-zero compiler exit yields a normal result, which the total
Lean function reflects. -/
def compile_source (output : String) (returncode : ℤ) (out err : String)
    (elapsed : ℚ) : CompileResult :=
  let success : Bool := returncode == 0
  { success := success
    message := if success then "Compilation succeeded" else "Compilation failed"
    stdout := out
    stderr := err
    elapsed := elapsed
    binary := if success then some output else none }

/-- Python `PurePath.suffix` restricted to a bare file name: the last
dot-extension, empty when the name has no dot, a leading dot only, or a
trailing dot. -/
def pySuffix (name : List Char) : List Char :=
  let k := (name.reverse.takeWhile (fun c => c ≠ '.')).length
  if 0 < k ∧ k < name.length - 1 then name.drop (name.length - (k + 1)) else []

/-- Python `PurePath.with_suffix` restricted to a bare file name: replace the
old suffix when present, otherwise append. -/
def with_suffix (name : String) (suffix : String) : String :=
  let cs := name.toList
  let old := pySuffix cs
  if old = [] then String.mk (cs ++ suffix.toList)
  else String.mk (cs.take (cs.length - old.length) ++ suffix.toList)

/-- The fnmatch test for the glob pattern `*.<ext>`: the name ends with the
given dot-extension. -/
def strEndsWith (f suffix : String) : Bool :=
  suffix.toList.isSuffixOf f.toList

/-- Python string `<=`: lexicographic comparison by code point, as used by
`sorted` on the file names of one directory. -/
def strLeList : List Char → List Char → Bool
  | [], _ => true
  | _ :: _, [] => false
  | a :: as, b :: bs =>
    if a = b then strLeList as bs
    else decide (a.toNat < b.toNat)

/-- The ordering relation of Python `sorted` on the names, as a binary
relation on `String`. -/
def pyStrLe (a b : String) : Prop :=
  strLeList a.toList b.toList = true

instance : DecidableRel pyStrLe :=
  fun a b => Bool.decEq (strLeList a.toList b.toList) true

instance : IsTotal String pyStrLe where
  total a b := by
    show strLeList a.toList b.toList = true ∨ strLeList b.toList a.toList = true
    generalize a.toList = as
    generalize b.toList = bs
    induction as generalizing bs with
    | nil => exact Or.inl rfl
    | cons x as' ih =>
      cases bs with
      | nil => exact Or.inr rfl
      | cons y bs' =>
        by_cases hxy : x = y
        · subst hxy
          simpa [strLeList] using ih bs'
        · have hne : x.toNat ≠ y.toNat := by
            intro h
            exact hxy (Char.ext (UInt32.eq_of_toBitVec_eq (BitVec.eq_of_toNat_eq h)))
          rcases Nat.lt_or_ge x.toNat y.toNat with h | h
          · exact Or.inl (by simp [strLeList, hxy, h])
          · have hyx : y.toNat < x.toNat := lt_of_le_of_ne h (Ne.symm hne)
            exact Or.inr (by simp [strLeList, Ne.symm hxy, hyx])

instance : IsTrans String pyStrLe where
  trans a b c h1 h2 := by
    show strLeList a.toList c.toList = true
    rw [pyStrLe] at h1 h2
    generalize ha : a.toList = as at h1 ⊢
    generalize hb : b.toList = bs at h1 h2
    generalize hc : c.toList = cs at h2 ⊢
    clear ha hb hc a b c
    induction as generalizing bs cs with
    | nil => rfl
    | cons x as' ih =>
      cases bs with
      | nil => simp [strLeList] at h1
      | cons y bs' =>
        cases cs with
        | nil => simp [strLeList] at h2
        | cons z cs' =>
          by_cases hxy : x = y <;> by_cases hyz : y = z
          · subst hxy; subst hyz
            simp only [strLeList, if_pos rfl] at h1 h2 ⊢
            exact ih bs' h1 cs' h2
          · subst hxy
            simpa [strLeList, hyz] using h2
          · subst hyz
            simpa [strLeList, hxy] using h1
          · simp only [strLeList, if_neg hxy, decide_eq_true_eq] at h1
            simp only [strLeList, if_neg hyz, decide_eq_true_eq] at h2
            have hxz : x.toNat < z.toNat := lt_trans h1 h2
            have hne : x ≠ z := by
              intro h
              subst h
              exact absurd hxz (by omega)
            simp [strLeList, hne, hxz]

/-- Python `sorted` on file names of one directory: a comparison sort by the
lexicographic string order (`sorted` is a stable comparison sort, modelled by
a stable comparison sort). -/
def pySorted (l : List String) : List String :=
  List.insertionSort pyStrLe l

/-- Embedding of `list_tests` (judge.py lines 91-96): the directory is modelled by the
list of file names it contains; `glob("*.in")` keeps names ending in `.in`,
`sorted` orders them, and each expected path is `input.with_suffix(".out")`.
The expected file's existence is never consulted. -/
def list_tests (files : List String) : List (String × String) :=
  (pySorted (files.filter (fun f => strEndsWith f ".in"))).map
    (fun f => (f, with_suffix f ".out"))

/-- Embedding of `find_source` (judge.py lines 51-63): the preferred name wins when
present; otherwise exactly one `.cpp` file must exist. -/
def find_source (files : List String) (preferred : String) : Except String String :=
  if preferred ∈ files then Except.ok preferred
  else
    match pySorted (files.filter (fun f => strEndsWith f ".cpp")) with
    | [] => Except.error "No C++ source file found"
    | [f] => Except.ok f
    | _ => Except.error "Multiple C++ sources found; specify one via --source"

/-- Outcome of the `subprocess.run` call inside `run_with_time`: either
`TimeoutExpired` (with whatever partial streams were captured, already
decoded) or normal completion. -/
inductive RunOutcome where
  | timedOut (partialOut partialErr : List Char)
  | completed (returncode : ℤ) (stdout stderr : List Char)
deriving Repr, DecidableEq

/-- The operating-system facts a single `run_single_test` call observes:
whether `/usr/bin/time` exists, whether the `resource` module imported, the
`ru_maxrss` counters around the call, the child outcome, the
`parse_time_output` result on the side-channel file, the wall-clock delta,
the expected file, the configured timeout, and the rendered `difflib`
diff lines used only in the WA message. -/
structure RunEnv where
  timeBinary : Bool
  hasResource : Bool
  beforeMaxrss : ℤ
  afterMaxrss : ℤ
  outcome : RunOutcome
  parsed : Option (ℚ × ℤ)
  wallDelta : ℚ
  expectedExists : Bool
  expectedText : List Char
  timeoutVal : Option ℚ
  inputName : String
  diffLines : List String
deriving Repr, DecidableEq

/-- The value `run_single_test` produces, together with the fate of the
side-channel temp file created by `run_with_time`: whether it was created
(`tempfile.mkstemp` ran) and whether it was unlinked before the function
returned. -/
structure SingleTestOutput where
  result : TestResult
  tempCreated : Bool
  tempDeleted : Bool
deriving Repr, DecidableEq

/-- Rendering of the optional timeout in the TLE message (Python formats the
`timeout` float directly into the f-string). -/
def optRatStr : Option ℚ → String
  | none => "None"
  | some t => toString t

/-- Embedding of `run_single_test` (judge.py lines 195-290).  On `TimeoutExpired` the
function returns at once: the side-channel file is created but never
unlinked on that path.  On completion it measures via the side-channel
parse when `/usr/bin/time` exists, else via `getrusage` deltas when
`resource` imported, else wall clock only; a missing or non-positive
measured time is replaced by the wall-clock delta; then the verdict chain
runs: `RE` on non-zero exit, `NO_EXPECTED` when the expected file is
missing, `AC` on normalized match, `WA` otherwise. -/
def run_single_test (env : RunEnv) : SingleTestOutput :=
  match env.outcome with
  | .timedOut pOut pErr =>
    { result :=
        { name := env.inputName
          status := "TLE"
          time_seconds := env.timeoutVal
          memory_kb := none
          stdout := pOut
          stderr := pErr
          message := "Timeout after " ++ optRatStr env.timeoutVal ++ " seconds" }
      tempCreated := env.timeBinary
      tempDeleted := false }
  | .completed exit_code program_stdout program_stderr =>
    let measured : Option ℚ × Option ℤ :=
      if env.timeBinary then
        match env.parsed with
        | none => (none, none)
        | some (t, m) => (some t, some m)
      else if env.hasResource then
        let delta := env.afterMaxrss - env.beforeMaxrss
        (some env.wallDelta, some (if delta > 0 then delta else env.afterMaxrss))
      else
        (some env.wallDelta, none)
    let time_seconds : ℚ :=
      match measured.1 with
      | none => env.wallDelta
      | some t => if t ≤ 0 then env.wallDelta else t
    let expected_text : List Char := if env.expectedExists then env.expectedText else []
    let normalized_expected : List (List Char) :=
      if env.expectedExists then normalize_text expected_text else []
    let normalized_actual := normalize_text program_stdout
    let sm : String × String :=
      if exit_code ≠ 0 then
        ("RE", "Runtime error (exit code " ++ toString exit_code ++ ")")
      else if env.expectedExists = false then
        ("NO_EXPECTED", "Expected output missing")
      else if normalized_actual = normalized_expected then
        ("AC", "Accepted")
      else
        ("WA", "Wrong answer\n" ++ String.intercalate "\n" (env.diffLines.take 20))
    { result :=
        { name := env.inputName
          status := sm.1
          time_seconds := some time_seconds
          memory_kb := measured.2
          stdout := program_stdout
          stderr := program_stderr
          message := sm.2 }
      tempCreated := env.timeBinary
      tempDeleted := env.timeBinary }

/-- The first-stage measured memory of `run_single_test` (judge.py lines
237-252), before any later processing: exactly the value the chosen
measurement path produced. -/
def measuredMemory (env : RunEnv) : Option ℤ :=
  if env.timeBinary then
    match env.parsed with
    | none => none
    | some (_, m) => some m
  else if env.hasResource then
    let delta := env.afterMaxrss - env.beforeMaxrss
    some (if delta > 0 then delta else env.afterMaxrss)
  else none

/-- The first-stage measured time of `run_single_test` (judge.py lines
237-252): the instrumentation-reported value before the trust check on
line 254 runs. -/
def measuredTime (env : RunEnv) : Option ℚ :=
  if env.timeBinary then
    match env.parsed with
    | none => none
    | some (t, _) => some t
  else some env.wallDelta

/-- Embedding of `main` (judge.py lines 311-429) from the point where the problem
directory has been resolved: resolve the source file, compile, and on
success run every discovered test case in order, computing the exit code.
`runner` stands for `run_single_test` applied to the compiled binary and
effective timeout; a resolution or compile failure returns exit code 1
before any test runs. -/
def mainJudge (files : List String) (preferred : String) (compilerRc : ℤ)
    (compilerOut compilerErr : String) (compilerElapsed : ℚ)
    (runner : String × String → TestResult) : ℕ × List TestResult :=
  match find_source files preferred with
  | Except.error _ => (1, [])
  | Except.ok _ =>
    let compile_result :=
      compile_source "solution" compilerRc compilerOut compilerErr compilerElapsed
    if compile_result.success = false ∨ compile_result.binary = none then (1, [])
    else
      let results := (list_tests files).map runner
      (if results.all (fun r => r.status == "AC") then 0 else 2, results)

/-- A run that completed with exit code 1 while the expected-output file is
missing (for claim C1). -/
def envC1 : RunEnv where
  timeBinary := false
  hasResource := false
  beforeMaxrss := 0
  afterMaxrss := 0
  outcome := RunOutcome.completed 1 ['5', '\n'] []
  parsed := none
  wallDelta := 1
  expectedExists := false
  expectedText := []
  timeoutVal := none
  inputName := "t1.in"
  diffLines := []

/-- A run that completed with exit code 0 while the expected-output file is
missing (witness for the amended claim C1). -/
def envC1w : RunEnv where
  timeBinary := false
  hasResource := false
  beforeMaxrss := 0
  afterMaxrss := 0
  outcome := RunOutcome.completed 0 ['5', '\n'] []
  parsed := none
  wallDelta := 1
  expectedExists := false
  expectedText := []
  timeoutVal := none
  inputName := "t1.in"
  diffLines := []

/-- A run that completed with exit code 1 whose stdout matches the expected
output byte for byte (witness for claim C2). -/
def envC2w : RunEnv where
  timeBinary := false
  hasResource := false
  beforeMaxrss := 0
  afterMaxrss := 0
  outcome := RunOutcome.completed 1 ['5', '\n'] []
  parsed := none
  wallDelta := 1
  expectedExists := true
  expectedText := ['5', '\n']
  timeoutVal := none
  inputName := "t1.in"
  diffLines := []

/-- A run that completed with exit code 0 whose stdout differs from the
expected output only by a trailing space and newline (witness for claim
C3). -/
def envC3w : RunEnv where
  timeBinary := false
  hasResource := false
  beforeMaxrss := 0
  afterMaxrss := 0
  outcome := RunOutcome.completed 0 ['5', ' ', '\n'] []
  parsed := none
  wallDelta := 1
  expectedExists := true
  expectedText := ['5']
  timeoutVal := none
  inputName := "t1.in"
  diffLines := []

/-- A run under `/usr/bin/time` that hit the timeout (failing input for
claim C5: the side-channel file is created, then `TimeoutExpired`
propagates before the unlink). -/
def envC5 : RunEnv where
  timeBinary := true
  hasResource := true
  beforeMaxrss := 0
  afterMaxrss := 0
  outcome := RunOutcome.timedOut [] []
  parsed := none
  wallDelta := 2
  expectedExists := true
  expectedText := ['5']
  timeoutVal := some 2
  inputName := "t1.in"
  diffLines := []

/-- A run on the `getrusage` fallback path whose child `ru_maxrss` counter
did not move (counterexample input for claim C6: the code reports the
absolute counter, not a clamped delta). -/
def envC6 : RunEnv where
  timeBinary := false
  hasResource := true
  beforeMaxrss := 100
  afterMaxrss := 100
  outcome := RunOutcome.completed 0 ['5'] []
  parsed := none
  wallDelta := 1
  expectedExists := true
  expectedText := ['5']
  timeoutVal := none
  inputName := "t1.in"
  diffLines := []

/-- A run under `/usr/bin/time` whose side-channel file reported an elapsed
time of zero (witness for claim C7: the zero is distrusted and replaced by
the wall-clock delta, while the reported memory is kept). -/
def envC7w : RunEnv where
  timeBinary := true
  hasResource := true
  beforeMaxrss := 0
  afterMaxrss := 0
  outcome := RunOutcome.completed 0 ['5'] []
  parsed := some (0, 42)
  wallDelta := 1
  expectedExists := true
  expectedText := ['5']
  timeoutVal := none
  inputName := "t1.in"
  diffLines := []

/-- A timed-out run with a configured two-second timeout (witness for claim
C10). -/
def envC10w : RunEnv where
  timeBinary := false
  hasResource := true
  beforeMaxrss := 0
  afterMaxrss := 0
  outcome := RunOutcome.timedOut ['p'] ['e']
  parsed := none
  wallDelta := 5
  expectedExists := true
  expectedText := ['5']
  timeoutVal := some 2
  inputName := "t1.in"
  diffLines := []

/-- A concrete runner that accepts every case (for the claim C4 witness). -/
def runnerC4 : String × String → TestResult :=
  fun p =>
    { name := p.1
      status := "AC"
      time_seconds := some 1
      memory_kb := none
      stdout := []
      stderr := []
      message := "Accepted" }

/-- A concrete runner that accepts every case (for the claim C9 witness). -/
def runnerC9 : String × String → TestResult :=
  fun p =>
    { name := p.1
      status := "AC"
      time_seconds := some 1
      memory_kb := none
      stdout := []
      stderr := []
      message := "Accepted" }

/-- Leading whitespace does not change the split. -/
lemma pySplitAux_dropWhile (s : List Char) :
    pySplitAux (s.dropWhile isPySpace) [] = pySplitAux s [] := by
  induction s with
  | nil => rfl
  | cons c cs ih =>
    by_cases h : isPySpace c
    · simp [List.dropWhile_cons, h, pySplitAux, ih]
    · simp [List.dropWhile_cons, h]

/-- A run of whitespace flushes the accumulator and nothing more. -/
lemma pySplitAux_all_ws (ws : List Char) (acc : List Char)
    (h : ∀ c ∈ ws, isPySpace c) :
    pySplitAux ws acc = if acc = [] then [] else [acc.reverse] := by
  induction ws generalizing acc with
  | nil => rfl
  | cons c cs ih =>
    have hc : isPySpace c := h c (List.mem_cons_self c cs)
    have hcs : ∀ x ∈ cs, isPySpace x := fun x hx => h x (List.mem_cons_of_mem c hx)
    by_cases ha : acc = []
    · simp [pySplitAux, hc, ha, ih [] hcs]
    · simp [pySplitAux, hc, ha, ih [] hcs]

/-- Trailing whitespace does not change the split. -/
lemma pySplitAux_append_ws (s ws acc : List Char)
    (h : ∀ c ∈ ws, isPySpace c) :
    pySplitAux (s ++ ws) acc = pySplitAux s acc := by
  induction s generalizing acc with
  | nil =>
    simpa [pySplitAux] using pySplitAux_all_ws ws acc h
  | cons c cs ih =>
    by_cases hc : isPySpace c
    · by_cases ha : acc = [] <;> simp [pySplitAux, hc, ha, ih]
    · simp [pySplitAux, hc, ih]

/-- Stripping before splitting is redundant: splitting already ignores outer
whitespace. -/
lemma pySplit_pyStrip (s : List Char) : pySplit (pyStrip s) = pySplit s := by
  unfold pySplit pyStrip
  set t := s.dropWhile isPySpace with ht
  have hdecomp : t = (t.reverse.dropWhile isPySpace).reverse ++
      (t.reverse.takeWhile isPySpace).reverse := by
    conv_lhs => rw [← List.reverse_reverse t,
      ← List.takeWhile_append_dropWhile (p := isPySpace) (l := t.reverse)]
    rw [List.reverse_append]
  have hws : ∀ c ∈ (t.reverse.takeWhile isPySpace).reverse, isPySpace c := by
    intro c hc
    exact List.mem_takeWhile_imp (List.mem_reverse.mp hc)
  calc pySplitAux (t.reverse.dropWhile isPySpace).reverse []
      = pySplitAux ((t.reverse.dropWhile isPySpace).reverse ++
          (t.reverse.takeWhile isPySpace).reverse) [] :=
        (pySplitAux_append_ws _ _ [] hws).symm
    _ = pySplitAux t [] := by rw [← hdecomp]
    _ = pySplitAux s [] := by rw [ht]; exact pySplitAux_dropWhile s

/-- Every token produced by the splitter is nonempty and whitespace-free. -/
lemma pySplitAux_tokens (s : List Char) (acc : List Char)
    (hacc : ∀ c ∈ acc, isPySpace c = false) :
    ∀ t ∈ pySplitAux s acc, t ≠ [] ∧ ∀ c ∈ t, isPySpace c = false := by
  induction s generalizing acc with
  | nil =>
    intro t htmem
    by_cases ha : acc = []
    · simp [pySplitAux, ha] at htmem
    · simp only [pySplitAux, if_neg ha, List.mem_singleton] at htmem
      subst htmem
      refine ⟨by simpa using ha, ?_⟩
      intro c hc
      exact hacc c (List.mem_reverse.mp hc)
  | cons c cs ih =>
    intro t htmem
    by_cases hc : isPySpace c
    · by_cases ha : acc = []
      · simp only [pySplitAux, if_pos hc, if_pos ha] at htmem
        exact ih [] (by simp) t htmem
      · simp only [pySplitAux, if_pos hc, if_neg ha, List.mem_cons] at htmem
        rcases htmem with rfl | htmem
        · refine ⟨by simpa using ha, ?_⟩
          intro x hx
          exact hacc x (List.mem_reverse.mp hx)
        · exact ih [] (by simp) t htmem
    · simp only [pySplitAux, if_neg hc] at htmem
      refine ih (c :: acc) ?_ t htmem
      intro x hx
      rcases List.mem_cons.mp hx with rfl | hx
      · simpa using hc
      · exact hacc x hx

/-- Scanning a whitespace-free block just pushes it onto the accumulator. -/
lemma pySplitAux_nonspace_block (t s acc : List Char)
    (h : ∀ c ∈ t, isPySpace c = false) :
    pySplitAux (t ++ s) acc = pySplitAux s (t.reverse ++ acc) := by
  induction t generalizing acc with
  | nil => simp
  | cons c cs ih =>
    have hc : isPySpace c = false := h c (List.mem_cons_self c cs)
    have hcs : ∀ x ∈ cs, isPySpace x = false :=
      fun x hx => h x (List.mem_cons_of_mem c hx)
    simp [pySplitAux, hc, ih (c :: acc) hcs]

/-- Splitting the single-space rejoin of a well-formed token list recovers
the token list. -/
lemma pySplit_joinTokens (ts : List (List Char))
    (h : ∀ t ∈ ts, t ≠ [] ∧ ∀ c ∈ t, isPySpace c = false) :
    pySplit (joinTokens ts) = ts := by
  induction ts with
  | nil => rfl
  | cons t ts' ih =>
    obtain ⟨htne, htws⟩ := h t (List.mem_cons_self t ts')
    have hts' : ∀ u ∈ ts', u ≠ [] ∧ ∀ c ∈ u, isPySpace c = false :=
      fun u hu => h u (List.mem_cons_of_mem t hu)
    cases ts' with
    | nil =>
      show pySplitAux (joinTokens [t]) [] = [t]
      have hj : joinTokens [t] = t := by simp [joinTokens]
      rw [hj, ← List.append_nil t, pySplitAux_nonspace_block t [] [] htws]
      simp [pySplitAux, htne]
    | cons u us =>
      have hjoin : joinTokens (t :: u :: us) = t ++ ' ' :: joinTokens (u :: us) := by
        simp [joinTokens, List.intersperse]
      show pySplitAux (joinTokens (t :: u :: us)) [] = t :: u :: us
      rw [hjoin, pySplitAux_nonspace_block t _ [] htws]
      have hsp : isPySpace ' ' = true := by decide
      simp only [pySplitAux, hsp, if_pos, List.append_nil]
      rw [if_neg (by simpa using htne), List.reverse_reverse]
      exact congrArg (t :: ·) (ih hts')

/-- Normalization is idempotent: re-normalizing the canonical rejoin of a
normalized token sequence returns the same sequence. -/
lemma normalize_text_idem (x : List Char) :
    normalize_text (joinTokens (normalize_text x)) = normalize_text x := by
  unfold normalize_text
  rw [pySplit_pyStrip]
  exact pySplit_joinTokens _ (pySplitAux_tokens (pyStrip x) [] (by simp))

/-- Appending a trailing whitespace character (such as a final newline) does
not change the normalized token sequence. -/
lemma normalize_text_append_ws (x : List Char) (c : Char) (h : isPySpace c) :
    normalize_text (x ++ [c]) = normalize_text x := by
  unfold normalize_text
  rw [pySplit_pyStrip, pySplit_pyStrip]
  exact pySplitAux_append_ws x [c] [] (by simpa using h)

/-- On a completed (non-timeout) run, the reported time is the first-stage
measured time run through the trust check of line 254, and the reported
memory is the first-stage measured memory unchanged. -/
lemma run_single_test_completed_measure (env : RunEnv) (rc : ℤ)
    (out err : List Char) (hout : env.outcome = RunOutcome.completed rc out err) :
    (run_single_test env).result.time_seconds =
      some (match measuredTime env with
            | none => env.wallDelta
            | some t => if t ≤ 0 then env.wallDelta else t) ∧
    (run_single_test env).result.memory_kb = measuredMemory env := by
  obtain ⟨tb, hr, bm, am, oc, par, wd, ee, et, tv, inm, dl⟩ := env
  simp only at hout
  subst hout
  cases tb <;> cases hr <;> rcases par with _ | ⟨t0, m0⟩ <;>
    simp [run_single_test, measuredTime, measuredMemory]

/-- Claim C1 (counterexample): a completed run with non-zero exit code and a
missing expected-output file is classified `RE`, not `NO_EXPECTED` — the
exit-code check precedes the expected-file check, so the claim's
"regardless of the child process's exit code" fails. -/
theorem C1_counterexample :
    envC1.expectedExists = false ∧
    envC1.outcome = RunOutcome.completed 1 ['5', '\n'] [] ∧
    (run_single_test envC1).result.status = "RE" ∧
    ¬(run_single_test envC1).result.status = "NO_EXPECTED" := by
  refine ⟨rfl, rfl, ?_, ?_⟩ <;> decide

/-- Claim C1 (amended): for every completed test run with exit code zero
whose expected-output file does not exist, the verdict is `NO_EXPECTED`. -/
theorem C1_no_expected_on_zero_exit (env : RunEnv) (out err : List Char)
    (hout : env.outcome = RunOutcome.completed 0 out err)
    (hexp : env.expectedExists = false) :
    (run_single_test env).result.status = "NO_EXPECTED" ∧
    (run_single_test env).result.message = "Expected output missing" := by
  constructor <;> simp [run_single_test, hout, hexp]

/-- Witness for claim C1 at a concrete zero-exit run with no expected
file. -/
theorem C1_witness :
    (run_single_test envC1w).result.status = "NO_EXPECTED" ∧
    (run_single_test envC1w).result.message = "Expected output missing" :=
  C1_no_expected_on_zero_exit envC1w ['5', '\n'] [] rfl rfl

/-- Claim C2: every completed (non-timeout) run with a non-zero exit code is
classified `RE`, with the exit code in the message, whatever the stdout
(including stdout matching the expected output exactly). -/
theorem C2_nonzero_exit_is_RE (env : RunEnv) (rc : ℤ) (out err : List Char)
    (hout : env.outcome = RunOutcome.completed rc out err) (hrc : rc ≠ 0) :
    (run_single_test env).result.status = "RE" ∧
    (run_single_test env).result.message =
      "Runtime error (exit code " ++ toString rc ++ ")" := by
  constructor <;> simp [run_single_test, hout, hrc]

/-- Witness for claim C2 at a concrete run whose stdout equals the expected
output byte for byte yet exits with code 1. -/
theorem C2_witness :
    (run_single_test envC2w).result.status = "RE" ∧
    (run_single_test envC2w).result.message =
      "Runtime error (exit code " ++ toString (1 : ℤ) ++ ")" :=
  C2_nonzero_exit_is_RE envC2w 1 ['5', '\n'] [] rfl (by decide)

/-- Claim C3: on a completed run with exit code zero and an existing
expected file the verdict is `AC` exactly when the strip-then-split token
sequences agree and `WA` otherwise; appending trailing whitespace (such as
a final newline) never changes the token sequence; and normalization is
idempotent on its canonical rejoin. -/
theorem C3_normalized_comparison :
    (∀ env out err, env.outcome = RunOutcome.completed 0 out err →
        env.expectedExists = true →
        (run_single_test env).result.status =
          (if normalize_text out = normalize_text env.expectedText
           then "AC" else "WA")) ∧
    (∀ x c, isPySpace c = true → normalize_text (x ++ [c]) = normalize_text x) ∧
    (∀ x, normalize_text (joinTokens (normalize_text x)) = normalize_text x) := by
  refine ⟨?_, ?_, normalize_text_idem⟩
  · intro env out err hout hexp
    by_cases h : normalize_text out = normalize_text env.expectedText
    · simp [run_single_test, hout, hexp, h]
    · simp [run_single_test, hout, hexp, h]
  · intro x c hc
    exact normalize_text_append_ws x c hc

/-- Witness for claim C3: an actual output with a trailing space and newline
against the expected output without them is accepted, and the other two
parts evaluated at concrete text. -/
theorem C3_witness :
    (run_single_test envC3w).result.status = "AC" ∧
    normalize_text (['5'] ++ ['\n']) = normalize_text ['5'] ∧
    normalize_text (joinTokens (normalize_text [' ', 'a', ' ', ' ', 'b'])) =
      normalize_text [' ', 'a', ' ', ' ', 'b'] := by
  refine ⟨?_, C3_normalized_comparison.2.1 ['5'] '\n' (by decide),
    C3_normalized_comparison.2.2 [' ', 'a', ' ', ' ', 'b']⟩
  have h := C3_normalized_comparison.1 envC3w ['5', ' ', '\n'] [] rfl rfl
  rwa [if_pos (by decide)] at h

/-- Claim C10: a run that exceeds the supplied timeout yields a `TLE` result
whose time is the configured timeout itself, whose memory is unknown, whose
message states the timeout, and which is computed without consulting the
expected output at all. -/
theorem C10_timeout_result (env : RunEnv) (pOut pErr : List Char) (t : ℚ)
    (hout : env.outcome = RunOutcome.timedOut pOut pErr)
    (ht : env.timeoutVal = some t) :
    (run_single_test env).result.status = "TLE" ∧
    (run_single_test env).result.time_seconds = some t ∧
    (run_single_test env).result.memory_kb = none ∧
    (run_single_test env).result.message =
      "Timeout after " ++ toString t ++ " seconds" ∧
    (∀ b et, run_single_test { env with expectedExists := b, expectedText := et } =
      run_single_test env) := by
  refine ⟨?_, ?_, ?_, ?_, ?_⟩ <;>
    simp [run_single_test, hout, ht, optRatStr]

/-- Witness for claim C10 at a concrete timed-out run with a two-second
timeout. -/
theorem C10_witness :
    (run_single_test envC10w).result.status = "TLE" ∧
    (run_single_test envC10w).result.time_seconds = some 2 ∧
    (run_single_test envC10w).result.memory_kb = none ∧
    (run_single_test envC10w).result.message =
      "Timeout after " ++ toString (2 : ℚ) ++ " seconds" :=
  ⟨(C10_timeout_result envC10w ['p'] ['e'] 2 rfl rfl).1,
   (C10_timeout_result envC10w ['p'] ['e'] 2 rfl rfl).2.1,
   (C10_timeout_result envC10w ['p'] ['e'] 2 rfl rfl).2.2.1,
   (C10_timeout_result envC10w ['p'] ['e'] 2 rfl rfl).2.2.2.1⟩

/-- Claim C5 (code bug): at the failing input — `/usr/bin/time` present and
the child exceeding the timeout — the side-channel temp file is created by
`run_with_time` but is not deleted before the test's result is returned:
`TimeoutExpired` propagates out of `run_with_time` before the unlink on the
normal path is reached, so the scoped-cleanup guarantee fails on the
timeout exit path. -/
theorem C5_timeout_leaks_side_channel :
    envC5.timeBinary = true ∧
    envC5.outcome = RunOutcome.timedOut [] [] ∧
    (run_single_test envC5).tempCreated = true ∧
    (run_single_test envC5).tempDeleted = false := by
  refine ⟨rfl, rfl, ?_, ?_⟩ <;> decide

/-- Claim C6 (counterexample): on the `getrusage` fallback path with a zero
`ru_maxrss` delta, the code reports the absolute post-call counter (100),
not the delta clamped to be non-negative (0). -/
theorem C6_counterexample :
    envC6.timeBinary = false ∧
    envC6.hasResource = true ∧
    envC6.afterMaxrss - envC6.beforeMaxrss = 0 ∧
    (run_single_test envC6).result.memory_kb = some 100 ∧
    ¬(run_single_test envC6).result.memory_kb =
      some (max (envC6.afterMaxrss - envC6.beforeMaxrss) 0) := by
  refine ⟨rfl, rfl, by decide, ?_, ?_⟩ <;> decide

/-- Claim C6 (amended): on the OS resource-usage fallback path, the reported
memory is the delta of the aggregated child `ru_maxrss` counter against the
pre-call baseline when that delta is positive, and otherwise the post-call
aggregated counter itself. -/
theorem C6_rusage_memory (env : RunEnv) (rc : ℤ) (out err : List Char)
    (hout : env.outcome = RunOutcome.completed rc out err)
    (htb : env.timeBinary = false) (hres : env.hasResource = true) :
    (run_single_test env).result.memory_kb =
      some (if env.afterMaxrss - env.beforeMaxrss > 0
            then env.afterMaxrss - env.beforeMaxrss
            else env.afterMaxrss) := by
  simp [run_single_test, hout, htb, hres]

/-- Witness for the amended claim C6 at the concrete fallback-path run. -/
theorem C6_witness :
    (run_single_test envC6).result.memory_kb =
      some (if envC6.afterMaxrss - envC6.beforeMaxrss > 0
            then envC6.afterMaxrss - envC6.beforeMaxrss
            else envC6.afterMaxrss) :=
  C6_rusage_memory envC6 0 ['5'] [] rfl rfl rfl

/-- Claim C7: on every completed (non-timeout) run with a non-negative
wall-clock delta, the reported time is present and non-negative; when the
first-stage (instrumentation) time is missing, zero or negative, the
reported time is the wall-clock delta; a trusted positive instrumented time
is kept; and the reported memory is the first-stage measured memory
unchanged — no analogous substitution is applied to it. -/
theorem C7_time_trust_memory_passthrough (env : RunEnv) (rc : ℤ)
    (out err : List Char)
    (hout : env.outcome = RunOutcome.completed rc out err)
    (hwd : 0 ≤ env.wallDelta) :
    (run_single_test env).result.time_seconds ≠ none ∧
    (∀ t, (run_single_test env).result.time_seconds = some t → 0 ≤ t) ∧
    ((measuredTime env).getD 0 ≤ 0 →
      (run_single_test env).result.time_seconds = some env.wallDelta) ∧
    (∀ t0, measuredTime env = some t0 → 0 < t0 →
      (run_single_test env).result.time_seconds = some t0) ∧
    (run_single_test env).result.memory_kb = measuredMemory env := by
  obtain ⟨htime, hmem⟩ := run_single_test_completed_measure env rc out err hout
  rcases hmt : measuredTime env with _ | t0
  · rw [hmt] at htime
    have htime2 : (run_single_test env).result.time_seconds =
        some env.wallDelta := htime
    refine ⟨by simp [htime2], ?_, fun _ => htime2, ?_, hmem⟩
    · intro t ht
      rw [htime2] at ht
      injection ht with ht
      exact ht ▸ hwd
    · intro t1 ht1
      exact absurd ht1 (by simp)
  · rw [hmt] at htime
    have htime2 : (run_single_test env).result.time_seconds =
        some (if t0 ≤ 0 then env.wallDelta else t0) := htime
    by_cases hpos : t0 ≤ 0
    · rw [if_pos hpos] at htime2
      refine ⟨by simp [htime2], ?_, fun _ => htime2, ?_, hmem⟩
      · intro t ht
        rw [htime2] at ht
        injection ht with ht
        exact ht ▸ hwd
      · intro t1 ht1 hgt
        injection ht1 with ht1
        subst ht1
        exact absurd hgt (by simpa using hpos)
    · rw [if_neg hpos] at htime2
      push_neg at hpos
      refine ⟨by simp [htime2], ?_, ?_, ?_, hmem⟩
      · intro t ht
        rw [htime2] at ht
        injection ht with ht
        exact ht ▸ le_of_lt hpos
      · intro hle
        simp only [Option.getD_some] at hle
        exact absurd hle (not_le.mpr hpos)
      · intro t1 ht1 _
        injection ht1 with ht1
        rw [htime2, ht1]

/-- Witness for claim C7: a run whose side-channel file reported zero
elapsed time keeps the reported memory (42 KB) but substitutes the
wall-clock delta for the untrusted zero time. -/
theorem C7_witness :
    (run_single_test envC7w).result.time_seconds = some envC7w.wallDelta ∧
    (run_single_test envC7w).result.memory_kb = measuredMemory envC7w := by
  have h := C7_time_trust_memory_passthrough envC7w 0 ['5'] [] rfl (by decide)
  exact ⟨h.2.2.1 (by decide), h.2.2.2.2⟩

/-- Claim C8: `compile_source` is a total function of the compiler outcome
(a failing compile is a normal result, not a fault), it succeeds exactly
when the compiler exit code is zero, and the artifact path is `None` iff
`success` is false. -/
theorem C8_compile_result_invariant (output : String) (rc : ℤ)
    (out err : String) (elapsed : ℚ) :
    ((compile_source output rc out err elapsed).binary = none ↔
      (compile_source output rc out err elapsed).success = false) ∧
    ((compile_source output rc out err elapsed).success = true ↔ rc = 0) := by
  by_cases h : rc = 0 <;> simp [compile_source, h]

/-- Claim C4: the judge exits 0 iff the source resolved, the compiler exited
0 and every discovered case's verdict is `AC`; a resolution or compile
failure exits 1 with zero test results produced; a successful compile with
some non-`AC` case exits 2. -/
theorem C4_exit_code_policy (files : List String) (preferred : String)
    (rc : ℤ) (cout cerr : String) (el : ℚ)
    (runner : String × String → TestResult) :
    ((mainJudge files preferred rc cout cerr el runner).1 = 0 ↔
      ((∃ s, find_source files preferred = Except.ok s) ∧ rc = 0 ∧
        ∀ r ∈ (list_tests files).map runner, r.status = "AC")) ∧
    (∀ e, find_source files preferred = Except.error e →
      mainJudge files preferred rc cout cerr el runner = (1, [])) ∧
    (rc ≠ 0 → mainJudge files preferred rc cout cerr el runner = (1, [])) ∧
    ((∃ s, find_source files preferred = Except.ok s) → rc = 0 →
      ¬(∀ r ∈ (list_tests files).map runner, r.status = "AC") →
      (mainJudge files preferred rc cout cerr el runner).1 = 2) := by
  rcases hfs : find_source files preferred with e | s
  · refine ⟨by simp [mainJudge, hfs], fun e' _ => by simp [mainJudge, hfs],
      fun _ => by simp [mainJudge, hfs], ?_⟩
    rintro ⟨s, hs⟩
    exact absurd hs (by simp)
  · by_cases hrc : rc = 0
    · subst hrc
      have hmain : mainJudge files preferred 0 cout cerr el runner =
          (if ((list_tests files).map runner).all (fun r => r.status == "AC")
             then 0 else 2,
           (list_tests files).map runner) := by
        simp [mainJudge, hfs, compile_source]
      by_cases hall : ∀ r ∈ (list_tests files).map runner, r.status = "AC"
      · have hb : ((list_tests files).map runner).all
            (fun r => r.status == "AC") = true := by
          simp only [List.all_eq_true, beq_iff_eq]
          exact hall
        refine ⟨?_, ?_, ?_, ?_⟩
        · rw [hmain, hb]
          constructor
          · intro _
            exact ⟨⟨s, rfl⟩, rfl, hall⟩
          · intro _
            rfl
        · intro e' he'
          exact absurd he' (by simp)
        · intro h
          exact absurd rfl h
        · intro _ _ hno
          exact absurd hall hno
      · have hb : ((list_tests files).map runner).all
            (fun r => r.status == "AC") = false := by
          rw [← Bool.not_eq_true]
          simp only [List.all_eq_true, beq_iff_eq]
          exact hall
        refine ⟨?_, ?_, ?_, ?_⟩
        · rw [hmain, hb]
          simp only [if_false]
          constructor
          · intro h
            exact absurd h (by norm_num)
          · rintro ⟨-, -, h⟩
            exact absurd h hall
        · intro e' he'
          exact absurd he' (by simp)
        · intro h
          exact absurd rfl h
        · intro _ _ _
          rw [hmain, hb]
          simp
    · have hmain : mainJudge files preferred rc cout cerr el runner = (1, []) := by
        have hs : ((compile_source "solution" rc cout cerr el).success = false) := by
          simp [compile_source, hrc]
        simp [mainJudge, hfs, hs]
      refine ⟨?_, ?_, fun _ => hmain, ?_⟩
      · rw [hmain]
        constructor
        · intro h
          exact absurd h (by norm_num)
        · rintro ⟨-, h, -⟩
          exact absurd h hrc
      · intro e' he'
        exact absurd he' (by simp)
      · intro _ h
        exact absurd h hrc

/-- Witness for claim C4: with a valid source but compiler exit code 1, the
judge returns exit code 1 and produces no test results. -/
theorem C4_witness :
    mainJudge ["a.in", "main.cpp"] "main.cpp" 1 "" "" 1 runnerC4 = (1, []) :=
  (C4_exit_code_policy ["a.in", "main.cpp"] "main.cpp" 1 "" "" 1
    runnerC4).2.2.1 (by decide)

/-- Claim C9: `list_tests` discovers the `.in` files of the directory sorted
by name, pairs each with the `.out` path obtained by suffix substitution,
never excludes a case for a missing expected file, and the orchestrator runs
and reports the cases in exactly that order. -/
theorem C9_enumeration_order (files : List String) (preferred : String)
    (cout cerr : String) (el : ℚ) (runner : String × String → TestResult) :
    List.Sorted pyStrLe ((list_tests files).map Prod.fst) ∧
    (∀ p ∈ list_tests files, p.2 = with_suffix p.1 ".out") ∧
    (∀ f ∈ files, strEndsWith f ".in" = true →
      (f, with_suffix f ".out") ∈ list_tests files) ∧
    (∀ s, find_source files preferred = Except.ok s →
      (mainJudge files preferred 0 cout cerr el runner).2 =
        (list_tests files).map runner) := by
  refine ⟨?_, ?_, ?_, ?_⟩
  · have hmap : (list_tests files).map Prod.fst =
        pySorted (files.filter (fun f => strEndsWith f ".in")) := by
      rw [list_tests, List.map_map]
      show List.map id _ = _
      exact List.map_id _
    rw [hmap]
    exact List.sorted_insertionSort pyStrLe _
  · intro p hp
    simp only [list_tests, List.mem_map] at hp
    obtain ⟨f, -, rfl⟩ := hp
    rfl
  · intro f hf hin
    have hmemf : f ∈ files.filter (fun f => strEndsWith f ".in") :=
      List.mem_filter.mpr ⟨hf, hin⟩
    have hmems : f ∈ pySorted (files.filter (fun f => strEndsWith f ".in")) := by
      simpa [pySorted] using
        (List.perm_insertionSort pyStrLe
          (files.filter (fun f => strEndsWith f ".in"))).mem_iff.mpr hmemf
    exact List.mem_map.mpr ⟨f, hmems, rfl⟩
  · intro s hs
    simp [mainJudge, hs, compile_source]

/-- Witness for claim C9 at a concrete directory listing. -/
theorem C9_witness :
    ("a.in", with_suffix "a.in" ".out") ∈ list_tests ["b.in", "a.in", "main.cpp"] ∧
    (mainJudge ["b.in", "a.in", "main.cpp"] "main.cpp" 0 "" "" 1 runnerC9).2 =
      (list_tests ["b.in", "a.in", "main.cpp"]).map runnerC9 := by
  have h := C9_enumeration_order ["b.in", "a.in", "main.cpp"] "main.cpp" "" "" 1 runnerC9
  exact ⟨h.2.2.1 "a.in" (by decide) (by decide), h.2.2.2 "main.cpp" rfl⟩

end Judge
